import Mathlib

/-!
A shallow embedding of `src/lib/compact/src/compact_vec.rs` (the
`CompactVec` container of the `compact` library) and proofs about it.

Modelling conventions:

* Raw addresses are modelled as natural numbers.  The allocator capability
  (trait `Allocator`, not present under `src/`; its contract is given in
  spec §4.1) is modelled as a state `AllocState` holding a fresh-address
  counter and the lists of allocation and deallocation events, so that
  "which storage was allocated / released" is observable in theorems.
* The dual-mode pointer (`PointerToMaybeCompact`, not present under
  `src/`; modelled from the spec §4.2: a raw address plus one discriminant
  bit, compact or free; the default pointer is the null free pointer) is
  modelled as the `addr` and `mode` fields of `CompactVec`.
* Element storage is modelled at the level of logical element values: the
  buffer contents at indices `[0, len)` are a `List α`.  Per the
  relocatable-value contract (spec §4.3), an element-level `decompact`
  produces a self-owned copy with the same logical value, so in the
  value-level model the element decompaction performed by `double_buf`,
  `insert` and `remove` is the identity on the element value.  For the
  claims that depend on element storage state (`is_still_compact`,
  `compact_from`) the element-level part of the `Compact` trait is kept
  abstract as an `ElemCompact` record.
* Operations that can call `A::allocate` / `A::deallocate`
  (`with_capacity`, `double_buf`, hence `push` and `insert`, and `clone` /
  `decompact`) take and return the `AllocState`; the remaining operations
  are pure, exactly as in the source they never touch the allocator.
* `remove` models the source's `assert!(index < len)` (a fatal abort,
  spec §7) by returning `none` in the out-of-bounds case.
-/

/-- Discriminant of the dual-mode pointer: compact (borrowed) or free
(owned) storage. -/
inductive Mode where
  | compact : Mode
  | free : Mode
deriving DecidableEq, Repr

/-- Modelled from the spec: the allocator capability of §4.1, instrumented
(as suggested in §8) so allocations and deallocations are observable.
`next` is the next fresh address; `allocs` and `deallocs` record
`(address, slot count)` events in order. -/
structure AllocState where
  next : Nat
  allocs : List (Nat × Nat)
  deallocs : List (Nat × Nat)
deriving DecidableEq, Repr

/-- Allocate `n` slots: returns a fresh address and records the event. -/
def AllocState.allocate (s : AllocState) (n : Nat) : Nat × AllocState :=
  (s.next, ⟨s.next + 1, s.allocs ++ [(s.next, n)], s.deallocs⟩)

/-- Deallocate `n` slots at `a`: records the event. -/
def AllocState.deallocate (s : AllocState) (a n : Nat) : AllocState :=
  ⟨s.next, s.allocs, s.deallocs ++ [(a, n)]⟩

/-- The `CompactVec<T, A>` container: dual-mode pointer (`addr`, `mode`),
the live elements `data` (so `len = data.length`), and the capacity
`cap`. -/
structure CompactVec (α : Type) where
  addr : Nat
  mode : Mode
  data : List α
  cap : Nat
deriving DecidableEq, Repr

namespace CompactVec

variable {α : Type}

/-- `CompactVec::len`. -/
def len (v : CompactVec α) : Nat :=
  v.data.length

/-- `CompactVec::is_empty`. -/
def is_empty (v : CompactVec α) : Bool :=
  v.len == 0

/-- `CompactVec::new`: default (null, free-mode) pointer, `len = 0`,
`cap = 0`. -/
def new : CompactVec α :=
  ⟨0, Mode.free, [], 0⟩

/-- `CompactVec::with_capacity`: allocates `cap` slots up front and sets
the pointer to free mode. -/
def with_capacity (cap : Nat) (s : AllocState) : CompactVec α × AllocState :=
  let r := s.allocate cap
  (⟨r.1, Mode.free, [], cap⟩, r.2)

/-- `CompactVec::double_buf`: `new_cap = if cap == 0 { 1 } else { cap * 2 }`,
allocate `new_cap` slots, decompact every element into the new storage
(value-preserving at the logical level), deallocate the old storage only
if it was not compact, set the pointer to free mode at the new address. -/
def double_buf (v : CompactVec α) (s : AllocState) : CompactVec α × AllocState :=
  let new_cap := if v.cap = 0 then 1 else v.cap * 2
  let r := s.allocate new_cap
  let s2 := if v.mode ≠ Mode.compact then r.2.deallocate v.addr v.cap else r.2
  (⟨r.1, Mode.free, v.data, new_cap⟩, s2)

/-- `CompactVec::push`: grow via `double_buf` when `len == cap`, then
write the value at index `len` and increment `len`. -/
def push (v : CompactVec α) (x : α) (s : AllocState) : CompactVec α × AllocState :=
  let g := if v.len = v.cap then v.double_buf s else (v, s)
  (⟨g.1.addr, g.1.mode, g.1.data ++ [x], g.1.cap⟩, g.2)

/-- `CompactVec::pop`: `None` on the empty container; otherwise decrement
`len` and return the element that was at the new `len` (the last one). -/
def pop (v : CompactVec α) : Option α × CompactVec α :=
  if v.len = 0 then (none, v)
  else (v.data.getLast?, ⟨v.addr, v.mode, v.data.dropLast, v.cap⟩)

/-- `CompactVec::insert` (precondition `index ≤ len`): grow when
`len == cap`, shift the elements at `[index, len)` up by one position
(decompacting them, value-preserving at the logical level), write the
value at `index`, increment `len`. -/
def insert (v : CompactVec α) (index : Nat) (x : α) (s : AllocState) :
    CompactVec α × AllocState :=
  let g := if v.len = v.cap then v.double_buf s else (v, s)
  (⟨g.1.addr, g.1.mode, g.1.data.take index ++ x :: g.1.data.drop index, g.1.cap⟩, g.2)

/-- `CompactVec::remove`: `assert!(index < len)` — the out-of-bounds case
aborts, modelled as `none`; otherwise read out the element at `index`,
shift the elements at `[index+1, len)` down by one (decompacting them,
value-preserving at the logical level), decrement `len`, return the
removed element. -/
def remove (v : CompactVec α) (index : Nat) : Option (α × CompactVec α) :=
  if h : index < v.data.length then
    some (v.data.get ⟨index, h⟩,
      ⟨v.addr, v.mode, v.data.take index ++ v.data.drop (index + 1), v.cap⟩)
  else none

/-- `CompactVec::truncate`: drop elements from the end until the length is
at most `desired_len`; the pointer and capacity are untouched. -/
def truncate (v : CompactVec α) (desired_len : Nat) : CompactVec α :=
  ⟨v.addr, v.mode, v.data.take desired_len, v.cap⟩

/-- `CompactVec::clear`: `truncate(0)`. -/
def clear (v : CompactVec α) : CompactVec α :=
  v.truncate 0

end CompactVec

/-- `<[T]>::swap(i, j)` on the buffer: exchange the entries at `i` and `j`
(identity if either index is out of bounds, which never happens in
`retain`). -/
def listSwap {α : Type} (l : List α) (i j : Nat) : List α :=
  match l[i]?, l[j]? with
  | some a, some b => (l.set i b).set j a
  | some _, none => l
  | none, _ => l

/-- The loop of `CompactVec::retain`: for `i` in `[0, len)`, if the
element at `i` is not kept increment `del`, else `swap(i - del, i)`.
Returns the final buffer and `del`. -/
def retainGo {α : Type} (keep : α → Bool) (len : Nat) (buf : List α) (del i : Nat) :
    List α × Nat :=
  if _h : i < len then
    match buf[i]? with
    | some a =>
      if keep a then retainGo keep len (listSwap buf (i - del) i) del (i + 1)
      else retainGo keep len buf (del + 1) (i + 1)
    | none => retainGo keep len buf del (i + 1)
  else (buf, del)
termination_by len - i

namespace CompactVec

variable {α : Type}

/-- `CompactVec::retain`: run the swap loop over `[0, len)`, then
`truncate(len - del)` if `del > 0`. -/
def retain (v : CompactVec α) (keep : α → Bool) : CompactVec α :=
  let len := v.data.length
  let r := retainGo keep len v.data 0 0
  let v2 : CompactVec α := ⟨v.addr, v.mode, r.1, v.cap⟩
  if r.2 > 0 then v2.truncate (len - r.2) else v2

end CompactVec

/-- A standard `Vec<T>`: backing buffer address, elements, capacity.  Its
own invariant `data.length ≤ cap` is maintained by `Vec` itself. -/
structure RustVec (α : Type) where
  addr : Nat
  data : List α
  cap : Nat
deriving DecidableEq, Repr

/-- `impl From<Vec<T>> for CompactVec<T, A>`: adopt the `Vec`'s pointer,
length and capacity directly as free storage (the `Vec` is forgotten, so
there is no copy and no double release). -/
def CompactVec.fromVec {α : Type} (w : RustVec α) : CompactVec α :=
  ⟨w.addr, Mode.free, w.data, w.cap⟩

namespace CompactVec

variable {α : Type}

/-- The generic `impl Clone`: `self.iter().cloned().collect::<Vec<_>>().into()` —
collect the `len` element values into a fresh `Vec` (a fresh allocation of
`len` slots, exact because a slice iterator's size hint is exact) and
adopt it as free storage. -/
def clone (v : CompactVec α) (s : AllocState) : CompactVec α × AllocState :=
  let r := s.allocate v.data.length
  (⟨r.1, Mode.free, v.data, v.data.length⟩, r.2)

/-- The generic (default) `Compact::decompact` for `CompactVec` (source
lines 332–344): if the pointer is compact, return `self.clone()`;
otherwise return a bitwise copy of the fields — a view that takes over the
existing free storage without copying (the caller has to make sure that
`self` will not be dropped). -/
def decompact (v : CompactVec α) (s : AllocState) : CompactVec α × AllocState :=
  if v.mode = Mode.compact then v.clone s
  else (⟨v.addr, v.mode, v.data, v.cap⟩, s)

end CompactVec

/-- The element-level part of the `Compact` trait (spec §4.3), kept
abstract: how an element reports `is_still_compact`, its dynamic size in
bytes, and the element value produced by materializing it
(`compact_from`) at a given destination base address. -/
structure ElemCompact (α : Type) where
  isStillCompact : α → Bool
  dynSize : α → Nat
  compactFromAt : α → Nat → α

/-- The element loop of the generic `Compact::compact_from` (source lines
325–329): walk the elements in index order, materializing each at the
current cumulative offset from the new base, advancing the offset by the
materialized element's `dynamic_size_bytes`. -/
def compactElems {α : Type} (E : ElemCompact α) (base : Nat) : Nat → List α → List α
  | _, [] => []
  | off, a :: rest =>
    let b := E.compactFromAt a (base + off)
    b :: compactElems E base (off + E.dynSize b) rest

namespace CompactVec

variable {α : Type}

/-- The generic (default) `Compact::is_still_compact` for `CompactVec`
(source lines 309–311): the container's own pointer is compact and every
element is still compact. -/
def is_still_compact (E : ElemCompact α) (v : CompactVec α) : Bool :=
  v.mode == Mode.compact && v.data.all E.isStillCompact

/-- The generic (default) `Compact::dynamic_size_bytes` for `CompactVec`
(source lines 313–318): `cap * size_of::<T>()` plus the sum of the
elements' dynamic sizes.  `sizeT` stands for `size_of::<T>()`. -/
def dynamic_size_bytes (E : ElemCompact α) (sizeT : Nat) (v : CompactVec α) : Nat :=
  v.cap * sizeT + (v.data.map E.dynSize).sum

/-- The generic (default) `Compact::compact_from` for `CompactVec`
(source lines 320–330): copy `cap` and `len` from the source, set the
pointer to compact mode at the new dynamic part, then materialize each
element at cumulative offsets starting right after the backing array span
`cap * size_of::<T>()`. -/
def compact_from (source : CompactVec α) (newAddr sizeT : Nat) (E : ElemCompact α) :
    CompactVec α :=
  ⟨newAddr, Mode.compact,
    compactElems E newAddr (source.cap * sizeT) source.data, source.cap⟩

end CompactVec

/-- The owning iterator `IntoIter<T, A>`: the container's dual-mode
pointer, length (`elems` are the `len` buffer elements), capacity, and the
forward cursor `index`. -/
structure IntoIter (α : Type) where
  addr : Nat
  mode : Mode
  elems : List α
  cap : Nat
  index : Nat
deriving DecidableEq, Repr

/-- `IntoIterator for CompactVec`: transfer pointer, length and capacity
into an `IntoIter` with cursor 0; the container is forgotten (its
destructor is disarmed). -/
def CompactVec.into_iter {α : Type} (v : CompactVec α) : IntoIter α :=
  ⟨v.addr, v.mode, v.data, v.cap, 0⟩

namespace IntoIter

variable {α : Type}

/-- `Iterator::next` for `IntoIter`: if `index < len`, read the element at
`index` and advance the cursor; otherwise `None`. -/
def next (it : IntoIter α) : Option α × IntoIter α :=
  match it.elems[it.index]? with
  | some a => (some a, ⟨it.addr, it.mode, it.elems, it.cap, it.index + 1⟩)
  | none => (none, it)

/-- Applying `next` `k` times, keeping the iterator state. -/
def nextK (it : IntoIter α) : Nat → IntoIter α
  | 0 => it
  | k + 1 => (it.next.2).nextK k

/-- The starting element offset of the slice the `Drop` impl for
`IntoIter` hands to `drop_in_place` (source lines 259–264):
`from_raw_parts(self.ptr.ptr().offset(self.index), self.len)` starts at
`self.index`. -/
def dropSliceStart (it : IntoIter α) : Nat :=
  it.index

/-- The length of the slice the `Drop` impl for `IntoIter` hands to
`drop_in_place` (source lines 259–264): the second argument it passes to
`from_raw_parts` is `self.len`, not `self.len - self.index`. -/
def dropSliceLen (it : IntoIter α) : Nat :=
  it.elems.length

/-- The deallocations performed by the `Drop` impl for `IntoIter` (source
lines 265–269): exactly one release of `(addr, cap)` iff the pointer is
not compact. -/
def dropDeallocs (it : IntoIter α) : List (Nat × Nat) :=
  if it.mode ≠ Mode.compact then [(it.addr, it.cap)] else []

end IntoIter

/-- A single stack operation, for stating properties of arbitrary
push/pop sequences. -/
inductive StackOp (α : Type) where
  | push : α → StackOp α
  | pop : StackOp α

/-- Whether a stack operation is a push. -/
def StackOp.isPush {α : Type} : StackOp α → Bool
  | StackOp.push _ => true
  | StackOp.pop => false

/-- Run a sequence of push/pop operations on a `CompactVec`, collecting
the result of every `pop` in order.  Returns the final container, the
final allocator state, and the pop results. -/
def runOps {α : Type} :
    List (StackOp α) → CompactVec α → AllocState →
      CompactVec α × AllocState × List (Option α)
  | [], v, s => (v, s, [])
  | StackOp.push a :: ops, v, s =>
    let r := v.push a s
    runOps ops r.1 r.2
  | StackOp.pop :: ops, v, s =>
    let r := v.pop
    let rest := runOps ops r.2 s
    (rest.1, rest.2.1, r.1 :: rest.2.2)

/-- Modelled from the spec: the abstract stack discipline of §8 — a pop on
a non-empty stack returns the most recently pushed not-yet-popped element
and removes it; a pop on an empty stack yields nothing and changes
nothing. -/
def specStackRun {α : Type} :
    List (StackOp α) → List α → List α × List (Option α)
  | [], st => (st, [])
  | StackOp.push a :: ops, st => specStackRun ops (st ++ [a])
  | StackOp.pop :: ops, st =>
    match st.getLast? with
    | some a =>
      let rest := specStackRun ops st.dropLast
      (rest.1, some a :: rest.2)
    | none =>
      let rest := specStackRun ops st
      (rest.1, none :: rest.2)

/-- The number of successful pops among a list of pop results. -/
def countSome {α : Type} (rs : List (Option α)) : Nat :=
  rs.countP (fun r => r.isSome)

section Helpers

variable {α : Type}

theorem double_buf_fields (v : CompactVec α) (s : AllocState) :
    (v.double_buf s).1.data = v.data ∧
    (v.double_buf s).1.mode = Mode.free ∧
    (v.double_buf s).1.cap = (if v.cap = 0 then 1 else v.cap * 2) := by
  simp [CompactVec.double_buf]

theorem push_data (v : CompactVec α) (x : α) (s : AllocState) :
    (v.push x s).1.data = v.data ++ [x] := by
  unfold CompactVec.push
  split <;> simp [double_buf_fields]

theorem push_cap_ge (v : CompactVec α) (x : α) (s : AllocState)
    (h : v.data.length ≤ v.cap) :
    (v.push x s).1.data.length ≤ (v.push x s).1.cap := by
  unfold CompactVec.push
  split
  · rename_i heq
    have hd := double_buf_fields v s
    simp only [hd.1, hd.2.2, List.length_append, List.length_cons,
      List.length_nil]
    unfold CompactVec.len at heq
    split <;> omega
  · rename_i hne
    unfold CompactVec.len at hne
    simp only [List.length_append, List.length_cons, List.length_nil]
    omega

theorem pop_empty (v : CompactVec α) (h : v.data = []) :
    v.pop = (none, v) := by
  simp [CompactVec.pop, CompactVec.len, h]

theorem pop_nonempty (v : CompactVec α) (h : v.data ≠ []) :
    v.pop = (v.data.getLast?, ⟨v.addr, v.mode, v.data.dropLast, v.cap⟩) := by
  simp [CompactVec.pop, CompactVec.len, h]

theorem runOps_simulates (ops : List (StackOp α)) (v : CompactVec α)
    (s : AllocState) :
    (runOps ops v s).1.data = (specStackRun ops v.data).1 ∧
    (runOps ops v s).2.2 = (specStackRun ops v.data).2 := by
  induction ops generalizing v s with
  | nil => simp [runOps, specStackRun]
  | cons op ops ih =>
    cases op with
    | push a =>
      have hd := push_data v a s
      simpa [runOps, specStackRun, hd] using ih (v.push a s).1 (v.push a s).2
    | pop =>
      by_cases h : v.data = []
      · have hp := pop_empty v h
        have hl : v.data.getLast? = none := by simp [h]
        simp [runOps, specStackRun, hp, hl, ih]
      · have hp := pop_nonempty v h
        have hl : v.data.getLast? = some (v.data.getLast h) :=
          List.getLast?_eq_getLast v.data h
        simp only [runOps, hp, specStackRun, hl]
        have := ih ⟨v.addr, v.mode, v.data.dropLast, v.cap⟩ s
        simp only at this
        simp [this.1, this.2]

theorem specStackRun_length (ops : List (StackOp α)) (st : List α) :
    (specStackRun ops st).1.length + countSome (specStackRun ops st).2 =
      st.length + ops.countP StackOp.isPush := by
  induction ops generalizing st with
  | nil => simp [specStackRun, countSome]
  | cons op ops ih =>
    cases op with
    | push a =>
      simp only [specStackRun, List.countP_cons]
      have := ih (st ++ [a])
      simp only [List.length_append, List.length_cons, List.length_nil] at this
      simp [StackOp.isPush]
      omega
    | pop =>
      cases hl : st.getLast? with
      | none =>
        have hst : st = [] := by
          cases st with
          | nil => rfl
          | cons b bs => simp [List.getLast?_eq_getLast] at hl
        subst hst
        simp only [specStackRun, List.getLast?_nil, List.countP_cons]
        have := ih []
        simp only [countSome, List.countP_cons, Option.isSome_none] at this ⊢
        simp [StackOp.isPush, countSome] at this ⊢
        omega
      | some a =>
        have hne : st ≠ [] := by
          intro hst; subst hst; simp at hl
        simp only [specStackRun, hl, List.countP_cons]
        have := ih st.dropLast
        have hdl : st.dropLast.length = st.length - 1 := by
          simp [List.length_dropLast]
        have hpos : 0 < st.length := List.length_pos.2 hne
        simp only [countSome, List.countP_cons, Option.isSome_some] at this ⊢
        simp [StackOp.isPush, countSome] at this ⊢
        omega

theorem remove_some (v : CompactVec α) (i : Nat) (h : i < v.data.length) :
    v.remove i = some (v.data.get ⟨i, h⟩,
      ⟨v.addr, v.mode, v.data.take i ++ v.data.drop (i + 1), v.cap⟩) := by
  simp [CompactVec.remove, h]

theorem insert_data (v : CompactVec α) (i : Nat) (x : α) (s : AllocState) :
    (v.insert i x s).1.data = v.data.take i ++ x :: v.data.drop i := by
  unfold CompactVec.insert
  split <;> simp [double_buf_fields]

theorem insert_len (v : CompactVec α) (i : Nat) (x : α) (s : AllocState)
    (h : i ≤ v.data.length) :
    (v.insert i x s).1.data.length = v.data.length + 1 := by
  rw [insert_data]
  simp only [List.length_append, List.length_take, List.length_cons,
    List.length_drop]
  omega

theorem listSwap_length (l : List α) (i j : Nat) :
    (listSwap l i j).length = l.length := by
  unfold listSwap
  split <;> simp

theorem listSwap_getElem? (l : List α) (i j : Nat) (hi : i < l.length)
    (hj : j < l.length) (m : Nat) :
    (listSwap l i j)[m]? =
      if m = j then l[i]? else if m = i then l[j]? else l[m]? := by
  have hli : l[i]? = some (l.get ⟨i, hi⟩) := by simp
  have hlj : l[j]? = some (l.get ⟨j, hj⟩) := by simp
  unfold listSwap
  rw [hli, hlj]
  show ((l.set i (l.get ⟨j, hj⟩)).set j (l.get ⟨i, hi⟩))[m]? = _
  by_cases hmj : m = j
  · subst hmj
    rw [if_pos rfl, List.getElem?_set, if_pos rfl, List.length_set,
      if_pos hj]
  · rw [if_neg hmj, List.getElem?_set, if_neg (fun h => hmj h.symm),
      List.getElem?_set]
    by_cases hmi : m = i
    · subst hmi
      rw [if_pos rfl, if_pos rfl, if_pos hi]
    · rw [if_neg hmi, if_neg (fun h => hmi h.symm)]

theorem listSwap_take (l : List α) (i j : Nat) (hij : j ≤ i)
    (hi : i < l.length) :
    (listSwap l j i).take j = l.take j := by
  apply List.ext_getElem?
  intro m
  rw [List.getElem?_take, List.getElem?_take]
  split
  · rename_i hm
    rw [listSwap_getElem? l j i (by omega) hi m]
    rw [if_neg (by omega), if_neg (by omega)]
  · rfl

theorem listSwap_at_snd (l : List α) (i j : Nat) (hij : j ≤ i)
    (hi : i < l.length) :
    (listSwap l j i)[j]? = l[i]? := by
  rw [listSwap_getElem? l j i (by omega) hi j]
  by_cases h : j = i
  · subst h; simp
  · rw [if_neg h, if_pos rfl]

theorem listSwap_drop (l : List α) (i j : Nat) (hij : j ≤ i)
    (hi : i < l.length) :
    (listSwap l j i).drop (i + 1) = l.drop (i + 1) := by
  apply List.ext_getElem?
  intro m
  rw [List.getElem?_drop, List.getElem?_drop]
  rw [listSwap_getElem? l j i (by omega) hi (i + 1 + m)]
  rw [if_neg (by omega), if_neg (by omega)]

theorem retainGo_spec (keep : α → Bool) (l : List α) :
    ∀ n i del buf,
      l.length - i = n →
      buf.length = l.length →
      i ≤ l.length →
      del = i - ((l.take i).filter keep).length →
      ((l.take i).filter keep).length ≤ i →
      buf.take (i - del) = (l.take i).filter keep →
      buf.drop i = l.drop i →
      (retainGo keep l.length buf del i).1.length = l.length ∧
      (retainGo keep l.length buf del i).2 =
        l.length - (l.filter keep).length ∧
      (retainGo keep l.length buf del i).1.take
        (l.length - (retainGo keep l.length buf del i).2) = l.filter keep := by
  intro n
  induction n with
  | zero =>
    intro i del buf hn hlen hile hdel hkle htake hdrop
    have hieq : i = l.length := by omega
    subst hieq
    rw [retainGo, dif_neg (by omega)]
    rw [List.take_length] at hdel hkle htake
    have hfle := List.length_filter_le keep l
    refine ⟨hlen, hdel, ?_⟩
    show buf.take (l.length - del) = l.filter keep
    exact htake
  | succ n ih =>
    intro i del buf hn hlen hile hdel hkle htake hdrop
    have hil : i < l.length := by omega
    have hib : i < buf.length := by omega
    have hbi : buf[i]? = l[i]? := by
      have h0 : (buf.drop i)[0]? = (l.drop i)[0]? := by rw [hdrop]
      rw [List.getElem?_drop, List.getElem?_drop] at h0
      simpa using h0
    have hli : l[i]? = some l[i] := List.getElem?_eq_getElem hil
    have htake_succ : l.take (i + 1) = l.take i ++ [l[i]] := by
      rw [List.take_succ, hli]
      rfl
    have hdrop_succ : buf.drop (i + 1) = l.drop (i + 1) := by
      have h1 := congrArg (List.drop 1) hdrop
      rwa [List.drop_drop, List.drop_drop] at h1
    rw [retainGo, dif_pos hil, hbi, hli]
    by_cases hk : keep l[i]
    · have hfs : (l.take (i + 1)).filter keep =
          (l.take i).filter keep ++ [l[i]] := by
        rw [htake_succ, List.filter_append]
        simp [hk]
      have hfslen : ((l.take (i + 1)).filter keep).length =
          ((l.take i).filter keep).length + 1 := by
        rw [hfs]
        simp
      simp only [hk, if_true]
      have hjle : i - del ≤ i := by omega
      have hswlen : (listSwap buf (i - del) i).length = l.length := by
        rw [listSwap_length]
        exact hlen
      refine ih (i + 1) del (listSwap buf (i - del) i) (by omega) hswlen
        (by omega) (by omega) (by omega) ?_ ?_
      · have hstep : i + 1 - del = (i - del) + 1 := by omega
        rw [hstep, List.take_succ,
          listSwap_take buf i (i - del) hjle hib,
          listSwap_at_snd buf i (i - del) hjle hib,
          htake, hbi, hli, hfs]
        rfl
      · rw [listSwap_drop buf i (i - del) hjle hib]
        exact hdrop_succ
    · have hfs : (l.take (i + 1)).filter keep = (l.take i).filter keep := by
        rw [htake_succ, List.filter_append]
        simp [hk]
      have hfslen : ((l.take (i + 1)).filter keep).length =
          ((l.take i).filter keep).length := by
        rw [hfs]
      simp only [hk, if_false, Bool.false_eq_true]
      refine ih (i + 1) (del + 1) buf (by omega) hlen (by omega)
        (by omega) (by omega) ?_ hdrop_succ
      have hstep : i + 1 - (del + 1) = i - del := by omega
      rw [hstep, htake, hfs]

theorem retain_data (v : CompactVec α) (keep : α → Bool) :
    (v.retain keep).data = v.data.filter keep := by
  have h := retainGo_spec keep v.data v.data.length 0 0 v.data (by omega) rfl
    (by omega) (by simp) (by simp) (by simp) rfl
  simp only [CompactVec.retain, CompactVec.truncate]
  split
  · exact h.2.2
  · rename_i hz
    have h2 : (retainGo keep v.data.length v.data 0 0).2 = 0 := by omega
    have h3 := h.2.2
    rw [h2, Nat.sub_zero] at h3
    rw [List.take_of_length_le (le_of_eq h.1)] at h3
    exact h3

theorem retain_frame (v : CompactVec α) (keep : α → Bool) :
    (v.retain keep).addr = v.addr ∧ (v.retain keep).mode = v.mode ∧
      (v.retain keep).cap = v.cap := by
  simp only [CompactVec.retain, CompactVec.truncate]
  split <;> exact ⟨rfl, rfl, rfl⟩

theorem insert_cap_ge (v : CompactVec α) (i : Nat) (x : α) (s : AllocState)
    (h : v.data.length ≤ v.cap) :
    (v.insert i x s).1.data.length ≤ (v.insert i x s).1.cap := by
  unfold CompactVec.insert
  split
  · rename_i heq
    have hd := double_buf_fields v s
    unfold CompactVec.len at heq
    simp only [hd.1, hd.2.2, List.length_append, List.length_take,
      List.length_cons, List.length_drop]
    split <;> omega
  · rename_i hne
    unfold CompactVec.len at hne
    simp only [List.length_append, List.length_take, List.length_cons,
      List.length_drop]
    omega

end Helpers

/-- C4: for every sequence of push and pop operations starting from an
empty `CompactVec`, the container contents and the pop results coincide
with the abstract stack discipline (so every pop on a non-empty container
returns the most recently pushed not-yet-popped element, in exact reverse
order of pushes), the final `len` equals the count of pushes minus the
count of successful pops, and a pop on an empty container yields nothing
and leaves the container unchanged. -/
theorem C4_push_pop_stack_discipline {α : Type} (ops : List (StackOp α))
    (s : AllocState) :
    (runOps ops CompactVec.new s).1.data = (specStackRun ops ([] : List α)).1 ∧
    (runOps ops CompactVec.new s).2.2 = (specStackRun ops ([] : List α)).2 ∧
    (runOps ops CompactVec.new s).1.data.length =
      ops.countP StackOp.isPush - countSome (runOps ops CompactVec.new s).2.2 ∧
    (∀ w : CompactVec α, w.data = [] → w.pop = (none, w)) := by
  have hsim := runOps_simulates ops (CompactVec.new (α := α)) s
  have hnew : (CompactVec.new (α := α)).data = [] := rfl
  rw [hnew] at hsim
  have hlen := specStackRun_length ops ([] : List α)
  refine ⟨hsim.1, hsim.2, ?_, pop_empty⟩
  rw [hsim.1, hsim.2]
  simp only [List.length_nil, Nat.zero_add] at hlen
  omega

/-- Witness for C4 at a concrete push/pop sequence. -/
theorem C4_witness :
    CompactVec.pop (CompactVec.new (α := Nat)) = (none, CompactVec.new) ∧
    (runOps [StackOp.push 1, StackOp.push 2, StackOp.pop, StackOp.pop,
        StackOp.pop] (CompactVec.new (α := Nat)) ⟨0, [], []⟩).2.2 =
      [some 2, some 1, none] := by
  have h := C4_push_pop_stack_discipline
    [StackOp.push 1, StackOp.push 2, StackOp.pop, StackOp.pop, StackOp.pop]
    (⟨0, [], []⟩ : AllocState)
  exact ⟨h.2.2.2 CompactVec.new rfl, by rw [h.2.1]; decide⟩

/-- C6: `remove(i)` with `i ≥ len` is a fatal precondition violation — the
operation aborts rather than returning a value (modelled as `none`); with
`i < len` it returns the element that was at index `i`, shifts the
elements at `[i+1, len)` down by one position, and decrements `len` by
one, with no other failure path. -/
theorem C6_remove_bounds {α : Type} (v : CompactVec α) (i : Nat) :
    (v.data.length ≤ i → v.remove i = none) ∧
    (∀ h : i < v.data.length, ∃ w,
      v.remove i = some (v.data.get ⟨i, h⟩, w) ∧
      w.data.length = v.data.length - 1 ∧
      (∀ j, j < i → w.data[j]? = v.data[j]?) ∧
      (∀ j, i ≤ j → w.data[j]? = v.data[j + 1]?)) := by
  constructor
  · intro h
    simp [CompactVec.remove, Nat.not_lt.2 h]
  · intro h
    refine ⟨⟨v.addr, v.mode, v.data.take i ++ v.data.drop (i + 1), v.cap⟩,
      by simp [CompactVec.remove, h], ?_, ?_, ?_⟩
    · simp only [List.length_append, List.length_take, List.length_drop]
      omega
    · intro j hj
      rw [List.getElem?_append_left
        (by simp only [List.length_take]; omega)]
      exact List.getElem?_take_of_lt hj
    · intro j hj
      rw [List.getElem?_append_right
        (by simp only [List.length_take]; omega)]
      rw [List.getElem?_drop]
      congr 1
      simp only [List.length_take]
      omega

/-- Witness for C6 at a concrete container and two concrete indices. -/
theorem C6_witness :
    (⟨0, Mode.free, [10, 20, 30], 4⟩ : CompactVec Nat).remove 7 = none ∧
    ∃ w, (⟨0, Mode.free, [10, 20, 30], 4⟩ : CompactVec Nat).remove 1 =
        some (20, w) ∧ w.data.length = 2 := by
  constructor
  · exact (C6_remove_bounds ⟨0, Mode.free, [10, 20, 30], 4⟩ 7).1 (by decide)
  · obtain ⟨w, hw1, hw2, -, -⟩ :=
      (C6_remove_bounds ⟨0, Mode.free, [10, 20, 30], 4⟩ 1).2 (by decide)
    exact ⟨w, by simpa using hw1, by simpa using hw2⟩

/-- C7: for every container, value and index `i ≤ len`, `insert(i, v)`
followed by `remove(i)` returns `v` and leaves the container holding
exactly the prior sequence of elements. -/
theorem C7_insert_remove_inverse {α : Type} (v : CompactVec α) (i : Nat)
    (x : α) (s : AllocState) (h : i ≤ v.data.length) :
    ∃ w, ((v.insert i x s).1).remove i = some (x, w) ∧ w.data = v.data := by
  set g := (v.insert i x s).1 with hg
  have hdata : g.data = v.data.take i ++ x :: v.data.drop i := insert_data v i x s
  have hlen : g.data.length = v.data.length + 1 := insert_len v i x s h
  have hi : i < g.data.length := by omega
  have htk : (v.data.take i).length = i := by
    simp only [List.length_take]; omega
  have hget : g.data.get ⟨i, hi⟩ = x := by
    have h1 : g.data[i]? = some x := by
      rw [hdata, List.getElem?_append_right (by omega), htk]
      simp
    have h2 : g.data[i]? = some (g.data.get ⟨i, hi⟩) := by
      simp [List.getElem?_eq_getElem hi]
    rw [h1] at h2
    exact (Option.some.injEq _ _ ▸ h2.symm)
  refine ⟨⟨g.addr, g.mode, g.data.take i ++ g.data.drop (i + 1), g.cap⟩, ?_, ?_⟩
  · have := remove_some g i hi
    rw [this, hget]
  · have h1 : g.data.take i = v.data.take i := by
      rw [hdata, List.take_append_of_le_length (by omega)]
      rw [List.take_take]
      congr 1
      omega
    have h2 : g.data.drop (i + 1) = v.data.drop i := by
      rw [hdata, List.drop_append_eq_append_drop]
      rw [List.drop_of_length_le (by omega), htk]
      simp
    simp only [h1, h2]
    exact List.take_append_drop i v.data

/-- Witness for C7 at a concrete container, index and value. -/
theorem C7_witness :
    ∃ w, ((CompactVec.insert (⟨0, Mode.free, [10, 20, 30], 3⟩ : CompactVec Nat)
        1 15 ⟨5, [], []⟩).1).remove 1 = some (15, w) ∧
      w.data = [10, 20, 30] :=
  C7_insert_remove_inverse ⟨0, Mode.free, [10, 20, 30], 3⟩ 1 15 ⟨5, [], []⟩
    (by simp)

/-- C8: after `retain(predicate)` the container holds exactly the elements
satisfying the predicate, in their original relative order, and `len`
equals the count of elements that satisfied the predicate; in particular
`retain` on `[1,2,3,4,5]` keeping only even values yields `[2,4]` with
`len == 2`. -/
theorem C8_retain_filter {α : Type} (v : CompactVec α) (keep : α → Bool) :
    (v.retain keep).data = v.data.filter keep ∧
    (v.retain keep).data.length = (v.data.filter keep).length ∧
    (CompactVec.retain ⟨0, Mode.free, [1, 2, 3, 4, 5], 5⟩
      (fun n => n % 2 == 0)).data = [2, 4] ∧
    (CompactVec.retain ⟨0, Mode.free, [1, 2, 3, 4, 5], 5⟩
      (fun n => n % 2 == 0)).len = 2 := by
  refine ⟨retain_data v keep, by rw [retain_data], ?_, ?_⟩
  · rw [retain_data]
    rfl
  · show (CompactVec.retain _ _).data.length = 2
    rw [retain_data]
    rfl

/-- C9: the invariant `cap ≥ len` holds after construction (`new`,
`with_capacity`, adoption of an owned buffer) and after every mutating
operation (`push`, `pop`, `insert`, `remove`, `retain`, `truncate`,
`clear`). -/
theorem C9_cap_ge_len {α : Type} (v : CompactVec α) (x : α) (i n : Nat)
    (s : AllocState) (w : RustVec α) (keep : α → Bool) :
    (CompactVec.new (α := α)).data.length ≤ (CompactVec.new (α := α)).cap ∧
    (CompactVec.with_capacity (α := α) n s).1.data.length ≤
      (CompactVec.with_capacity (α := α) n s).1.cap ∧
    (w.data.length ≤ w.cap →
      (CompactVec.fromVec w).data.length ≤ (CompactVec.fromVec w).cap) ∧
    (v.data.length ≤ v.cap →
      (v.push x s).1.data.length ≤ (v.push x s).1.cap) ∧
    (v.data.length ≤ v.cap →
      (v.pop).2.data.length ≤ (v.pop).2.cap) ∧
    (v.data.length ≤ v.cap →
      (v.insert i x s).1.data.length ≤ (v.insert i x s).1.cap) ∧
    (v.data.length ≤ v.cap → ∀ p, v.remove i = some p →
      p.2.data.length ≤ p.2.cap) ∧
    (v.data.length ≤ v.cap →
      (v.retain keep).data.length ≤ (v.retain keep).cap) ∧
    (v.data.length ≤ v.cap →
      (v.truncate n).data.length ≤ (v.truncate n).cap) ∧
    (v.data.length ≤ v.cap →
      (v.clear).data.length ≤ (v.clear).cap) := by
  refine ⟨by simp [CompactVec.new], by simp [CompactVec.with_capacity],
    fun h => by simpa [CompactVec.fromVec] using h,
    fun h => push_cap_ge v x s h, fun h => ?_,
    fun h => insert_cap_ge v i x s h, fun h p hp => ?_, fun h => ?_,
    fun h => ?_, fun h => ?_⟩
  · unfold CompactVec.pop
    split
    · exact h
    · simp only [List.length_dropLast]
      omega
  · unfold CompactVec.remove at hp
    split at hp
    · rename_i hlt
      cases hp
      simp only [List.length_append, List.length_take, List.length_drop]
      omega
    · cases hp
  · have hd := retain_data v keep
    have hf := retain_frame v keep
    rw [hd, hf.2.2]
    exact le_trans (List.length_filter_le keep v.data) h
  · simp only [CompactVec.truncate, List.length_take]
    omega
  · simp only [CompactVec.clear, CompactVec.truncate, List.length_take]
    omega

/-- Witness for C9 at a concrete container, applying each conditional
conjunct with its hypothesis discharged. -/
theorem C9_witness :
    ((⟨3, Mode.free, [5, 6], 4⟩ : CompactVec Nat).push 7 ⟨9, [], []⟩).1.data.length ≤
      ((⟨3, Mode.free, [5, 6], 4⟩ : CompactVec Nat).push 7 ⟨9, [], []⟩).1.cap ∧
    ((⟨3, Mode.free, [5, 6], 4⟩ : CompactVec Nat).pop).2.data.length ≤
      ((⟨3, Mode.free, [5, 6], 4⟩ : CompactVec Nat).pop).2.cap ∧
    (∀ p, (⟨3, Mode.free, [5, 6], 4⟩ : CompactVec Nat).remove 0 = some p →
      p.2.data.length ≤ p.2.cap) ∧
    ((⟨3, Mode.free, [5, 6], 4⟩ : CompactVec Nat).retain
      (fun m => m == 6)).data.length ≤
      ((⟨3, Mode.free, [5, 6], 4⟩ : CompactVec Nat).retain
        (fun m => m == 6)).cap := by
  have h := C9_cap_ge_len (⟨3, Mode.free, [5, 6], 4⟩ : CompactVec Nat) 7 0 1
    ⟨9, [], []⟩ ⟨0, [], 0⟩ (fun m => m == 6)
  exact ⟨h.2.2.2.1 (by decide), h.2.2.2.2.1 (by decide),
    h.2.2.2.2.2.2.1 (by decide), h.2.2.2.2.2.2.2.1 (by decide)⟩

/-- C10: the non-growing mutating operations `pop`, `remove`, `retain`,
`truncate` and `clear` never change the capacity, the storage mode, or the
pointer address of the container. -/
theorem C10_nongrowing_frame {α : Type} (v : CompactVec α) (i n : Nat)
    (keep : α → Bool) :
    ((v.pop).2.addr = v.addr ∧ (v.pop).2.mode = v.mode ∧
      (v.pop).2.cap = v.cap) ∧
    (∀ p, v.remove i = some p →
      p.2.addr = v.addr ∧ p.2.mode = v.mode ∧ p.2.cap = v.cap) ∧
    ((v.retain keep).addr = v.addr ∧ (v.retain keep).mode = v.mode ∧
      (v.retain keep).cap = v.cap) ∧
    ((v.truncate n).addr = v.addr ∧ (v.truncate n).mode = v.mode ∧
      (v.truncate n).cap = v.cap) ∧
    ((v.clear).addr = v.addr ∧ (v.clear).mode = v.mode ∧
      (v.clear).cap = v.cap) := by
  refine ⟨?_, fun p hp => ?_, retain_frame v keep, ⟨rfl, rfl, rfl⟩,
    ⟨rfl, rfl, rfl⟩⟩
  · unfold CompactVec.pop
    split <;> exact ⟨rfl, rfl, rfl⟩
  · unfold CompactVec.remove at hp
    split at hp
    · cases hp
      exact ⟨rfl, rfl, rfl⟩
    · cases hp

/-- Witness for C10 at a concrete container and index. -/
theorem C10_witness :
    ∀ p, (⟨2, Mode.compact, [8, 9], 2⟩ : CompactVec Nat).remove 1 = some p →
      p.2.addr = 2 ∧ p.2.mode = Mode.compact ∧ p.2.cap = 2 :=
  (C10_nongrowing_frame (⟨2, Mode.compact, [8, 9], 2⟩ : CompactVec Nat) 1 0
    (fun _ => true)).2.1

/-- C5: capacity growth always doubles the current capacity (minimum 1
when it is 0) and is triggered exactly when an insertion would exceed
capacity (`len == cap`, no allocation otherwise); a container built
`with_capacity(2)` into which three values are pushed performs exactly one
growth (one extra allocation), ends with capacity 4, and holds the three
values in push order. -/
theorem C5_growth_doubles {α : Type} (v : CompactVec α) (x a b c : α)
    (s : AllocState) :
    (v.double_buf s).1.cap = (if v.cap = 0 then 1 else v.cap * 2) ∧
    (v.data.length = v.cap →
      (v.push x s).1.cap = (if v.cap = 0 then 1 else v.cap * 2) ∧
      (v.push x s).2.allocs =
        s.allocs ++ [(s.next, if v.cap = 0 then 1 else v.cap * 2)]) ∧
    (v.data.length ≠ v.cap →
      (v.push x s).1.cap = v.cap ∧ (v.push x s).2 = s) ∧
    ((((CompactVec.with_capacity (α := α) 2 s).1.push a
        (CompactVec.with_capacity (α := α) 2 s).2).1.push b
        ((CompactVec.with_capacity (α := α) 2 s).1.push a
          (CompactVec.with_capacity (α := α) 2 s).2).2).1.push c
        (((CompactVec.with_capacity (α := α) 2 s).1.push a
          (CompactVec.with_capacity (α := α) 2 s).2).1.push b
          ((CompactVec.with_capacity (α := α) 2 s).1.push a
            (CompactVec.with_capacity (α := α) 2 s).2).2).2).1.cap = 4 ∧
    ((((CompactVec.with_capacity (α := α) 2 s).1.push a
        (CompactVec.with_capacity (α := α) 2 s).2).1.push b
        ((CompactVec.with_capacity (α := α) 2 s).1.push a
          (CompactVec.with_capacity (α := α) 2 s).2).2).1.push c
        (((CompactVec.with_capacity (α := α) 2 s).1.push a
          (CompactVec.with_capacity (α := α) 2 s).2).1.push b
          ((CompactVec.with_capacity (α := α) 2 s).1.push a
            (CompactVec.with_capacity (α := α) 2 s).2).2).2).1.data =
      [a, b, c] ∧
    ((((CompactVec.with_capacity (α := α) 2 s).1.push a
        (CompactVec.with_capacity (α := α) 2 s).2).1.push b
        ((CompactVec.with_capacity (α := α) 2 s).1.push a
          (CompactVec.with_capacity (α := α) 2 s).2).2).1.push c
        (((CompactVec.with_capacity (α := α) 2 s).1.push a
          (CompactVec.with_capacity (α := α) 2 s).2).1.push b
          ((CompactVec.with_capacity (α := α) 2 s).1.push a
            (CompactVec.with_capacity (α := α) 2 s).2).2).2).2.allocs =
      s.allocs ++ [(s.next, 2), (s.next + 1, 4)] := by
  refine ⟨by simp [CompactVec.double_buf, AllocState.allocate],
    fun h => ?_, fun h => ?_, ?_, ?_, ?_⟩
  · constructor
    · simp [CompactVec.push, CompactVec.len, h, CompactVec.double_buf,
        AllocState.allocate, AllocState.deallocate]
    · simp only [CompactVec.push, CompactVec.len, h, if_pos,
        CompactVec.double_buf, AllocState.allocate]
      split <;> simp [AllocState.deallocate]
  · constructor
    · simp [CompactVec.push, CompactVec.len, h]
    · simp [CompactVec.push, CompactVec.len, h]
  · simp [CompactVec.with_capacity, CompactVec.push, CompactVec.len,
      CompactVec.double_buf, AllocState.allocate, AllocState.deallocate]
  · simp [CompactVec.with_capacity, CompactVec.push, CompactVec.len,
      CompactVec.double_buf, AllocState.allocate, AllocState.deallocate]
  · simp [CompactVec.with_capacity, CompactVec.push, CompactVec.len,
      CompactVec.double_buf, AllocState.allocate, AllocState.deallocate]

/-- Witness for C5 at a concrete container and allocator state. -/
theorem C5_witness :
    ((⟨0, Mode.free, [4], 1⟩ : CompactVec Nat).push 5 ⟨7, [], []⟩).1.cap = 2 ∧
    ((⟨0, Mode.free, [4], 1⟩ : CompactVec Nat).push 5
      ⟨7, [], []⟩).2.allocs = [(7, 2)] := by
  have h := (C5_growth_doubles (⟨0, Mode.free, [4], 1⟩ : CompactVec Nat)
    5 1 2 3 ⟨7, [], []⟩).2.1 (by decide)
  exact ⟨h.1.trans (by decide), h.2.trans (by decide)⟩

/-- C1 counterexample: on a compact-mode container at address 5,
`decompact` does not return a view taking over the existing storage — it
returns a freshly allocated free-mode copy at a different address — and on
a free-mode container it keeps the same storage address with no new
allocation rather than producing a copy, the reverse of the claim. -/
theorem C1_counterexample :
    (CompactVec.decompact (⟨5, Mode.compact, [7], 1⟩ : CompactVec Nat)
      ⟨9, [], []⟩).1.addr ≠ 5 ∧
    (CompactVec.decompact (⟨5, Mode.compact, [7], 1⟩ : CompactVec Nat)
      ⟨9, [], []⟩).1.mode = Mode.free ∧
    (CompactVec.decompact (⟨5, Mode.compact, [7], 1⟩ : CompactVec Nat)
      ⟨9, [], []⟩).2.allocs = [(9, 1)] ∧
    (CompactVec.decompact (⟨5, Mode.free, [7], 1⟩ : CompactVec Nat)
      ⟨9, [], []⟩).1.addr = 5 ∧
    (CompactVec.decompact (⟨5, Mode.free, [7], 1⟩ : CompactVec Nat)
      ⟨9, [], []⟩).2.allocs = [] := by
  decide

/-- C1 (amended): `decompact` applied to a value whose own pointer is
compact returns an equivalent self-owned copy (free mode, freshly
allocated storage, same element values); applied to an already self-owned
(free-storage) value it returns a view that takes over the existing
storage without copying (identical fields, no allocation), and the
original must then not be dropped (its release responsibility is
consumed). -/
theorem C1_decompact_amended {α : Type} (v : CompactVec α) (s : AllocState) :
    (v.mode = Mode.compact →
      (v.decompact s).1.mode = Mode.free ∧
      (v.decompact s).1.addr = s.next ∧
      (v.decompact s).1.data = v.data ∧
      (v.decompact s).2.allocs = s.allocs ++ [(s.next, v.data.length)]) ∧
    (v.mode = Mode.free →
      (v.decompact s).1 = v ∧ (v.decompact s).2 = s) := by
  constructor
  · intro h
    simp [CompactVec.decompact, h, CompactVec.clone, AllocState.allocate]
  · intro h
    obtain ⟨a, m, d, c⟩ := v
    simp only at h
    subst h
    simp [CompactVec.decompact]

/-- Witness for C1 at concrete compact-mode and free-mode containers. -/
theorem C1_witness :
    ((CompactVec.decompact (⟨4, Mode.compact, [1, 2], 2⟩ : CompactVec Nat)
        ⟨6, [], []⟩).1.mode = Mode.free ∧
      (CompactVec.decompact (⟨4, Mode.compact, [1, 2], 2⟩ : CompactVec Nat)
        ⟨6, [], []⟩).1.addr = (⟨6, [], []⟩ : AllocState).next ∧
      (CompactVec.decompact (⟨4, Mode.compact, [1, 2], 2⟩ : CompactVec Nat)
        ⟨6, [], []⟩).1.data =
        (⟨4, Mode.compact, [1, 2], 2⟩ : CompactVec Nat).data ∧
      (CompactVec.decompact (⟨4, Mode.compact, [1, 2], 2⟩ : CompactVec Nat)
        ⟨6, [], []⟩).2.allocs =
        (⟨6, [], []⟩ : AllocState).allocs ++
          [((⟨6, [], []⟩ : AllocState).next,
            (⟨4, Mode.compact, [1, 2], 2⟩ : CompactVec Nat).data.length)]) ∧
    ((CompactVec.decompact (⟨4, Mode.free, [1, 2], 2⟩ : CompactVec Nat)
        ⟨6, [], []⟩).1 = ⟨4, Mode.free, [1, 2], 2⟩ ∧
      (CompactVec.decompact (⟨4, Mode.free, [1, 2], 2⟩ : CompactVec Nat)
        ⟨6, [], []⟩).2 = ⟨6, [], []⟩) :=
  ⟨(C1_decompact_amended ⟨4, Mode.compact, [1, 2], 2⟩ ⟨6, [], []⟩).1 rfl,
    (C1_decompact_amended ⟨4, Mode.free, [1, 2], 2⟩ ⟨6, [], []⟩).2 rfl⟩

theorem compactElems_spec {α β : Type} (E : ElemCompact α) (base : Nat)
    (val : α → β)
    (hsc : ∀ a off, E.isStillCompact (E.compactFromAt a off) = true)
    (hval : ∀ a off, val (E.compactFromAt a off) = val a) :
    ∀ (l : List α) (off : Nat),
      (compactElems E base off l).all E.isStillCompact = true ∧
      (compactElems E base off l).map val = l.map val := by
  intro l
  induction l with
  | nil =>
    intro off
    simp [compactElems]
  | cons a rest ih =>
    intro off
    simp only [compactElems, List.all_cons, List.map_cons]
    refine ⟨?_, ?_⟩
    · rw [hsc, Bool.true_and]
      exact (ih _).1
    · rw [hval, (ih _).2]

/-- C3: for every source container, every destination base address
different from the source's, every destination buffer of at least
`dynamic_size_bytes()` bytes, and every element implementation obeying the
relocatable-value contract (materializing an element yields a
still-compact element with the same logical value), the value materialized
by `compact_from` reports `is_still_compact() == true` and reads back
element values identical to the source's, in the same order. -/
theorem C3_compact_from_roundtrip {α β : Type} (E : ElemCompact α)
    (source : CompactVec α) (newAddr sizeT bufSize : Nat) (val : α → β)
    (hsc : ∀ a off, E.isStillCompact (E.compactFromAt a off) = true)
    (hval : ∀ a off, val (E.compactFromAt a off) = val a)
    (_hne : newAddr ≠ source.addr)
    (_hbuf : CompactVec.dynamic_size_bytes E sizeT source ≤ bufSize) :
    CompactVec.is_still_compact E (source.compact_from newAddr sizeT E) = true ∧
    (source.compact_from newAddr sizeT E).data.map val =
      source.data.map val := by
  have h := compactElems_spec E newAddr val hsc hval source.data
    (source.cap * sizeT)
  constructor
  · simp only [CompactVec.is_still_compact, CompactVec.compact_from]
    rw [h.1]
    rfl
  · exact h.2

/-- Witness for C3 at a concrete source, element implementation and
destination address. -/
theorem C3_witness :
    CompactVec.is_still_compact ⟨fun _ => true, fun _ => 0, fun a _ => a⟩
      (CompactVec.compact_from (⟨5, Mode.free, [1, 2], 2⟩ : CompactVec Nat) 9 4
        ⟨fun _ => true, fun _ => 0, fun a _ => a⟩) = true ∧
    (CompactVec.compact_from (⟨5, Mode.free, [1, 2], 2⟩ : CompactVec Nat) 9 4
      ⟨fun _ => true, fun _ => 0, fun a _ => a⟩).data.map (fun a => a) =
      (⟨5, Mode.free, [1, 2], 2⟩ : CompactVec Nat).data.map (fun a => a) :=
  C3_compact_from_roundtrip ⟨fun _ => true, fun _ => 0, fun a _ => a⟩
    ⟨5, Mode.free, [1, 2], 2⟩ 9 4 100 (fun a => a)
    (fun _ _ => rfl) (fun _ _ => rfl) (by decide) (by decide)

/-- C2 (code bug): after consuming one element of a two-element free-mode
container through the owning iterator, the slice the iterator's `Drop`
impl hands to `drop_in_place` starts at element offset 1 but has length
`self.len = 2` — not the single remaining unconsumed element at `[1, 2)` —
so it overruns the element region (`start + length > len`).  The
storage-release half of the claim does hold: exactly one release of the
free-mode storage. -/
theorem C2_intoiter_drop_bug :
    ((((⟨0, Mode.free, [10, 20], 2⟩ : CompactVec Nat).into_iter).nextK
      1).dropSliceStart = 1) ∧
    ((((⟨0, Mode.free, [10, 20], 2⟩ : CompactVec Nat).into_iter).nextK
      1).dropSliceLen = 2) ∧
    ((((⟨0, Mode.free, [10, 20], 2⟩ : CompactVec Nat).into_iter).nextK
        1).elems.length -
      (((⟨0, Mode.free, [10, 20], 2⟩ : CompactVec Nat).into_iter).nextK
        1).index = 1) ∧
    ((((⟨0, Mode.free, [10, 20], 2⟩ : CompactVec Nat).into_iter).nextK
        1).dropSliceLen ≠ 1) ∧
    ((((⟨0, Mode.free, [10, 20], 2⟩ : CompactVec Nat).into_iter).nextK
        1).dropSliceStart +
      (((⟨0, Mode.free, [10, 20], 2⟩ : CompactVec Nat).into_iter).nextK
        1).dropSliceLen >
      (((⟨0, Mode.free, [10, 20], 2⟩ : CompactVec Nat).into_iter).nextK
        1).elems.length) ∧
    ((((⟨0, Mode.free, [10, 20], 2⟩ : CompactVec Nat).into_iter).nextK
      1).dropDeallocs = [(0, 2)]) := by
  decide
